import Mathlib

/-!
Shallow embedding of the wasm CLI query file (x/wasm/client/cli/query.go).

Go strings and byte slices are both modelled as List Nat whose entries are
byte values below 256; a Go string is a byte sequence, so this cast is exact.
Fallible Go functions returning (value, error) are modelled as Except String.
The standard-library decoders called by the file (encoding/hex DecodeString,
encoding/base64 StdEncoding DecodeString, strconv ParseUint) are embedded
from their library source because the claims quantify over their behaviour.
-/

/-- Helper: whether an Except value is a success. -/
def exceptOk {ε α : Type} : Except ε α → Bool
  | .ok _ => true
  | .error _ => false

/-! ## encoding/hex -/

/-- Embeds fromHexChar of encoding/hex: value of one ASCII hex digit,
checked in the library order 0-9, a-f, A-F. -/
def fromHexChar (c : Nat) : Option Nat :=
  if 48 ≤ c ∧ c ≤ 57 then some (c - 48)
  else if 97 ≤ c ∧ c ≤ 102 then some (c - 97 + 10)
  else if 65 ≤ c ∧ c ≤ 70 then some (c - 65 + 10)
  else none

/-- Embeds hex.DecodeString: consumes digit pairs; a non-digit yields an
invalid-byte error, a leftover single digit yields a length error.  The Go
function also returns the partially decoded prefix next to the error; the
Except embedding keeps only the error, which is what every caller in the
file looks at. -/
def hexDecodeString : List Nat → Except String (List Nat)
  | [] => .ok []
  | [c] =>
    match fromHexChar c with
    | none => .error "invalid byte"
    | some _ => .error "odd length hex string"
  | p :: q :: rest =>
    match fromHexChar p with
    | none => .error "invalid byte"
    | some a =>
      match fromHexChar q with
      | none => .error "invalid byte"
      | some b =>
        match hexDecodeString rest with
        | .error e => .error e
        | .ok tl => .ok ((a * 16 + b) :: tl)

/-- Embeds hex.EncodeToString with the lowercase alphabet 0123456789abcdef. -/
def hexDigitChar (v : Nat) : Nat := if v < 10 then 48 + v else 97 + (v - 10)

/-- Embeds hex.EncodeToString: two digits per byte, high nibble first. -/
def hexEncodeToString : List Nat → List Nat
  | [] => []
  | b :: rest => hexDigitChar (b / 16) :: hexDigitChar (b % 16) :: hexEncodeToString rest

/-- Spec-level well-formedness of a hex input: even length, all hex digits. -/
def hexWellFormed (s : List Nat) : Bool :=
  decide (s.length % 2 = 0) && s.all (fun c => (fromHexChar c).isSome)

/-! ## encoding/base64, StdEncoding (standard alphabet, padding 61) -/

/-- Embeds the StdEncoding decode map: position in the standard alphabet. -/
def b64Index (c : Nat) : Option Nat :=
  if 65 ≤ c ∧ c ≤ 90 then some (c - 65)
  else if 97 ≤ c ∧ c ≤ 122 then some (c - 97 + 26)
  else if 48 ≤ c ∧ c ≤ 57 then some (c - 48 + 52)
  else if c = 43 then some 62
  else if c = 47 then some 63
  else none

/-- Embeds the StdEncoding alphabet: byte at position v. -/
def b64Char (v : Nat) : Nat :=
  if v < 26 then 65 + v
  else if v < 52 then 97 + (v - 26)
  else if v < 62 then 48 + (v - 52)
  else if v = 62 then 43
  else 47

/-- Newline bytes skipped by the base64 decoder. -/
def isNL (c : Nat) : Bool := c = 10 || c = 13

/-- Drops leading newline bytes, as the decoder does while looking for the
second padding byte and for trailing garbage. -/
def skipNL : List Nat → List Nat
  | [] => []
  | c :: rest => if isNL c then skipNL rest else c :: rest

/-- Removes every newline byte. -/
def filterNL (l : List Nat) : List Nat := l.filter (fun c => !isNL c)

/-- Embeds base64.StdEncoding.EncodeToString: three input bytes become four
alphabet bytes; a tail of one or two bytes is completed with padding 61. -/
def b64EncodeToString : List Nat → List Nat
  | b0 :: b1 :: b2 :: rest =>
    b64Char (b0 / 4) :: b64Char (b0 % 4 * 16 + b1 / 16) ::
      b64Char (b1 % 16 * 4 + b2 / 64) :: b64Char (b2 % 64) :: b64EncodeToString rest
  | [b0, b1] => [b64Char (b0 / 4), b64Char (b0 % 4 * 16 + b1 / 16), b64Char (b1 % 16 * 4), 61]
  | [b0] => [b64Char (b0 / 4), b64Char (b0 % 4 * 16), 61, 61]
  | [] => []

/-- The 24-bit value assembled from up to four six-bit units, missing units
read as zero, as in the decodeQuantum conversion step. -/
def quantumVal (ds : List Nat) : Nat :=
  ds.getD 0 0 * 262144 + ds.getD 1 0 * 4096 + ds.getD 2 0 * 64 + ds.getD 3 0

/-- Output bytes of one quantum: dlen source units give dlen - 1 bytes. -/
def quantumBytes (ds : List Nat) (dlen : Nat) : List Nat :=
  if dlen = 4 then [quantumVal ds / 65536 % 256, quantumVal ds / 256 % 256, quantumVal ds % 256]
  else if dlen = 3 then [quantumVal ds / 65536 % 256, quantumVal ds / 256 % 256]
  else [quantumVal ds / 65536 % 256]

/-- Embeds decodeQuantum of encoding/base64 for StdEncoding: reads one
four-unit quantum from the source, skipping newlines; acc holds the six-bit
units already read (the loop index j is acc.length).  Running out of input
inside a quantum is an error because StdEncoding uses padding; a padding
byte is legal only at positions two and three, must be doubled at position
two, and only newlines may follow it.  Returns the decoded bytes and the
unread remainder of the source. -/
def decodeQuantumGo : List Nat → List Nat → Except String (List Nat × List Nat)
  | [], acc => if acc.length = 0 then .ok ([], []) else .error "corrupt input"
  | c :: rest, acc =>
    if isNL c then decodeQuantumGo rest acc
    else
      match b64Index c with
      | some v =>
        if acc.length = 3 then .ok (quantumBytes (acc ++ [v]) 4, rest)
        else decodeQuantumGo rest (acc ++ [v])
      | none =>
        if c = 61 then
          if acc.length = 2 then
            match skipNL rest with
            | [] => .error "corrupt input"
            | c2 :: rest2 =>
              if c2 = 61 then
                match skipNL rest2 with
                | [] => .ok (quantumBytes acc 2, [])
                | _ :: _ => .error "corrupt input"
              else .error "corrupt input"
          else if acc.length = 3 then
            match skipNL rest with
            | [] => .ok (quantumBytes acc 3, [])
            | _ :: _ => .error "corrupt input"
          else .error "corrupt input"
        else .error "corrupt input"

/-- Embeds the Decode loop: quanta are decoded until the source is consumed.
The fuel argument only bounds the iteration count; every quantum read from a
non-empty source consumes input, so the initial fuel length + 1 used by
b64DecodeString is never exhausted. -/
def b64DecodeAux : Nat → List Nat → Except String (List Nat)
  | _, [] => .ok []
  | 0, _ :: _ => .error "fuel"
  | fuel + 1, c :: cs =>
    match decodeQuantumGo (c :: cs) [] with
    | .error e => .error e
    | .ok (bs, rest) =>
      match b64DecodeAux fuel rest with
      | .error e => .error e
      | .ok bs2 => .ok (bs ++ bs2)

/-- Embeds base64.StdEncoding.DecodeString. -/
def b64DecodeString (s : List Nat) : Except String (List Nat) :=
  b64DecodeAux (s.length + 1) s

/-- A byte that is in the standard base64 alphabet. -/
def isAlphaB64 (c : Nat) : Bool := (b64Index c).isSome

/-- One legal final quantum: four alphabet bytes, or three and one padding
byte, or two and doubled padding. -/
def finalQuantumOk : List Nat → Bool
  | [a, b, c, d] =>
    isAlphaB64 a && isAlphaB64 b &&
      ((isAlphaB64 c && (isAlphaB64 d || decide (d = 61))) || (decide (c = 61) && decide (d = 61)))
  | _ => false

/-- The language of acceptable newline-free inputs of the standard padded
base64 decoder: full alphabet quanta followed by one legal final quantum,
or the empty string. -/
def b64Lang : List Nat → Bool
  | [] => true
  | a :: b :: c :: d :: rest =>
    if rest.length = 0 then finalQuantumOk [a, b, c, d]
    else isAlphaB64 a && isAlphaB64 b && isAlphaB64 c && isAlphaB64 d && b64Lang rest
  | _ => false

/-! ## query.go: asciiDecodeString and the argument decoder -/

/-- Embeds asciiDecodeString: the identity byte cast, never an error. -/
def asciiDecodeString (s : List Nat) : Except String (List Nat) := .ok s

/-- Embeds the argumentDecoder struct: a default decoder and the three
encoding selector flags ascii, hex, b64. -/
structure argumentDecoder where
  dec : List Nat → Except String (List Nat)
  asciiF : Bool
  hexF : Bool
  b64F : Bool

/-- Embeds newArgDecoder: all selector flags start unset. -/
def newArgDecoder (dec : List Nat → Except String (List Nat)) : argumentDecoder :=
  ⟨dec, false, false, false⟩

/-- Embeds the flag scan loop of DecodeString: walks the selector flags in
order, failing as soon as a second set flag is seen, and otherwise reporting
the index of the single set flag, if any. -/
def scanFlagsAux : List Bool → Nat → Option Nat → Except String (Option Nat)
  | [], _, found => .ok found
  | b :: rest, i, found =>
    if b then
      match found with
      | some _ => .error "multiple decoding flags used"
      | none => scanFlagsAux rest (i + 1) (some i)
    else scanFlagsAux rest (i + 1) found

/-- Embeds argumentDecoder.DecodeString: scans the flags ascii, hex, b64 in
that order, then dispatches on the found index, falling back to the default
decoder when no flag is set. -/
def argumentDecoder.DecodeString (a : argumentDecoder) (s : List Nat) :
    Except String (List Nat) :=
  match scanFlagsAux [a.asciiF, a.hexF, a.b64F] 0 none with
  | .error e => .error e
  | .ok (some 0) => asciiDecodeString s
  | .ok (some 1) => hexDecodeString s
  | .ok (some 2) => b64DecodeString s
  | .ok _ => a.dec s

/-! ## query.go: withPageKeyDecoded and the command argument phases -/

/-- Result of running a Go function that may abort the process instead of
returning: crashed models a runtime abort, returned a normal return. -/
inductive GoCall (α : Type) where
  | crashed (msg : String)
  | returned (val : α)
deriving DecidableEq

/-- Embeds withPageKeyDecoded: reads the page-key flag value (modelled as
the input), base64-decodes it, and stores the raw bytes back.  On a decode
failure the Go code calls panic with the error text instead of returning an
error; the flag read and write steps, which can only fail when the flag is
unregistered, are abstracted away. -/
def withPageKeyDecoded (pageKey : List Nat) : GoCall (List Nat) :=
  match b64DecodeString pageKey with
  | .error e => .crashed e
  | .ok raw => .returned raw

/-- Largest value of a Go uint64. -/
def maxUint64 : Nat := 18446744073709551615

/-- Embeds the digit loop of strconv.ParseUint with base 10 and bit size 64:
a non-digit byte is a syntax error, exceeding the 64-bit range is a range
error. -/
def parseUint64Aux : List Nat → Nat → Except String Nat
  | [], n => .ok n
  | c :: rest, n =>
    if 48 ≤ c ∧ c ≤ 57 then
      if maxUint64 < n * 10 + (c - 48) then .error "value out of range"
      else parseUint64Aux rest (n * 10 + (c - 48))
    else .error "invalid syntax"

/-- Embeds strconv.ParseUint with base 10 and bit size 64: the empty string
is a syntax error, otherwise the digits are folded left to right. -/
def parseUint64 : List Nat → Except String Nat
  | [] => .error "invalid syntax"
  | c :: rest => parseUint64Aux (c :: rest) 0

/-- Outcome of the local argument phase of a command: an error returned
before any remote call, or the payload of the remote query that is issued. -/
inductive CmdOutcome (α : Type) where
  | errOut (msg : String)
  | remoteQuery (req : α)
deriving DecidableEq

/-- Embeds the argument validation of GetCmdListContractByCode, which runs
before the remote ContractsByCode query: the argument must parse with
strconv.ParseUint base 10 bit size 64 and must not be zero. -/
def listContractByCodeArgPhase (arg : List Nat) : CmdOutcome Nat :=
  match parseUint64 arg with
  | .error e => .errOut e
  | .ok codeID => if codeID = 0 then .errOut "empty code id" else .remoteQuery codeID

/-- Embeds the query-argument validation of GetCmdGetContractStateSmart,
which runs before the remote SmartContractState query: the argument must be
non-empty, must decode through the argument decoder, and the decoded bytes
must pass json.Valid, which is abstracted as the predicate parameter
jsonValid since its source is the encoding/json library. -/
def smartQueryArgPhase (a : argumentDecoder) (jsonValid : List Nat → Bool)
    (arg : List Nat) : CmdOutcome (List Nat) :=
  if arg = [] then .errOut "query data must not be empty"
  else
    match a.DecodeString arg with
    | .error e => .errOut ("decode query: " ++ e)
    | .ok qd => if jsonValid qd then .remoteQuery qd else .errOut "query data must be json"

/-- Outcome of the response handling of the code download command: an error,
or a file write with the returned bytecode. -/
inductive DownloadOutcome where
  | errOut (msg : String)
  | writeFile (data : List Nat)
deriving DecidableEq

/-- Embeds the response handling of GetCmdQueryCode after the remote Code
query returned: empty data is the contract-not-found error, otherwise the
data is written to the output file. -/
def codeDownloadPhase (data : List Nat) : DownloadOutcome :=
  if data.length = 0 then .errOut "contract not found" else .writeFile data

/-! ## Sanity examples -/

example : hexDecodeString [99, 97, 102, 101] = .ok [202, 254] := rfl
example : b64DecodeString [97, 71, 107, 61] = .ok [104, 105] := rfl
example : b64EncodeToString [104, 105] = [97, 71, 107, 61] := by decide
example : exceptOk (b64DecodeString [33]) = false := by decide
example : parseUint64 [52, 50] = .ok 42 := rfl
example : exceptOk (parseUint64 [52, 97]) = false := by decide

/-! ## Helper lemmas for the hex claims -/

/-- Encoding a nibble with the hex alphabet and reading it back is exact. -/
theorem fromHexChar_hexDigitChar : ∀ v < 16, fromHexChar (hexDigitChar v) = some v := by decide

/-- Decoding the hex encoding of a byte list returns the list. -/
theorem hexDecode_hexEncode (B : List Nat) (h : ∀ b ∈ B, b < 256) :
    hexDecodeString (hexEncodeToString B) = .ok B := by
  induction B with
  | nil => rfl
  | cons b rest ih =>
    have hb : b < 256 := h b (List.mem_cons_self b rest)
    have h1 := fromHexChar_hexDigitChar (b / 16) (by omega)
    have h2 := fromHexChar_hexDigitChar (b % 16) (by omega)
    have ih2 := ih (fun x hx => h x (List.mem_cons_of_mem b hx))
    simp [hexEncodeToString, hexDecodeString, h1, h2, ih2]
    omega

/-! ## Claim C1 -/

/-- C1: whenever at least two of the three selector flags are set,
DecodeString fails with the ambiguity error for every input string and every
default decoder, so no decoder is invoked and the input is never examined. -/
theorem C1_multiple_flags_ambiguous (a : argumentDecoder) (s : List Nat)
    (h : 2 ≤ a.asciiF.toNat + a.hexF.toNat + a.b64F.toNat) :
    a.DecodeString s = .error "multiple decoding flags used" := by
  obtain ⟨d, x, y, z⟩ := a
  cases x <;> cases y <;> cases z <;> first | rfl | simp at h

/-- Witness for C1 at a concrete decoder state and input. -/
theorem C1_witness :
    argumentDecoder.DecodeString ⟨asciiDecodeString, true, true, false⟩ [104, 105] =
      .error "multiple decoding flags used" :=
  C1_multiple_flags_ambiguous ⟨asciiDecodeString, true, true, false⟩ [104, 105] (by decide)

/-! ## Claim C2 -/

/-- C2: with exactly one selector flag set DecodeString applies the matching
decoder (ascii byte cast, hex decode, standard base64 decode), and with no
flag set it applies the caller-supplied default decoder. -/
theorem C2_single_flag_dispatch (dec : List Nat → Except String (List Nat)) (s : List Nat) :
    argumentDecoder.DecodeString ⟨dec, true, false, false⟩ s = asciiDecodeString s ∧
    argumentDecoder.DecodeString ⟨dec, false, true, false⟩ s = hexDecodeString s ∧
    argumentDecoder.DecodeString ⟨dec, false, false, true⟩ s = b64DecodeString s ∧
    argumentDecoder.DecodeString ⟨dec, false, false, false⟩ s = dec s :=
  ⟨rfl, rfl, rfl, rfl⟩

/-! ## Claim C3 -/

/-- C3: asciiDecodeString succeeds on every input, including the empty
string, and returns exactly the bytes of the input. -/
theorem C3_ascii_identity (s : List Nat) : asciiDecodeString s = .ok s := rfl

/-! ## Claim C4 -/

/-- C4: the hex branch of DecodeString round-trips: decoding the hex
encoding of any byte sequence succeeds and yields exactly that sequence. -/
theorem C4_hex_roundtrip (dec : List Nat → Except String (List Nat)) (B : List Nat)
    (h : ∀ b ∈ B, b < 256) :
    argumentDecoder.DecodeString ⟨dec, false, true, false⟩ (hexEncodeToString B) = .ok B :=
  hexDecode_hexEncode B h

/-- Witness for C4 at the bytes 202 and 254. -/
theorem C4_witness :
    argumentDecoder.DecodeString ⟨asciiDecodeString, false, true, false⟩
      (hexEncodeToString [202, 254]) = .ok [202, 254] :=
  C4_hex_roundtrip asciiDecodeString [202, 254] (by decide)

/-! ## Claim C7 -/

/-- C7 counterexample: on the page-key flag value 33 (one exclamation-mark
byte, which is not valid base64) the page-key preprocessing aborts the
process instead of returning an error to the caller. -/
theorem C7_counterexample : withPageKeyDecoded [33] = GoCall.crashed "corrupt input" := rfl

/-- C7 amended: the page-key preprocessing returns normally exactly when the
page-key flag value base64-decodes, and panics with the decode error text,
rather than returning an error, when base64 decoding fails. -/
theorem C7_amended_page_key (k : List Nat) :
    (∀ raw, b64DecodeString k = .ok raw → withPageKeyDecoded k = GoCall.returned raw) ∧
    (∀ e, b64DecodeString k = .error e → withPageKeyDecoded k = GoCall.crashed e) := by
  constructor
  · intro raw h
    unfold withPageKeyDecoded
    rw [h]
  · intro e h
    unfold withPageKeyDecoded
    rw [h]

/-- Witness for the amended C7: a valid page key returns normally, an
invalid one aborts. -/
theorem C7_witness :
    withPageKeyDecoded [97, 71, 107, 61] = GoCall.returned [104, 105] ∧
    withPageKeyDecoded [33] = GoCall.crashed "corrupt input" :=
  ⟨(C7_amended_page_key [97, 71, 107, 61]).1 [104, 105] rfl,
   (C7_amended_page_key [33]).2 "corrupt input" rfl⟩

/-! ## Claim C8 -/

/-- C8: in the list-contract-by-code command an argument that does not parse
as a base-10 unsigned 64-bit integer fails, a parse result of zero fails
with the empty-code-id error, and the remote query is issued only for a
successfully parsed nonzero code id. -/
theorem C8_list_contract_by_code_arg (arg : List Nat) :
    (exceptOk (parseUint64 arg) = false → ∃ e, listContractByCodeArgPhase arg = .errOut e) ∧
    (parseUint64 arg = .ok 0 → listContractByCodeArgPhase arg = .errOut "empty code id") ∧
    (∀ cid, listContractByCodeArgPhase arg = .remoteQuery cid →
      parseUint64 arg = .ok cid ∧ 0 < cid) := by
  refine ⟨?_, ?_, ?_⟩
  · intro hbad
    unfold listContractByCodeArgPhase
    cases h : parseUint64 arg with
    | error e => exact ⟨e, rfl⟩
    | ok v => rw [h] at hbad; simp [exceptOk] at hbad
  · intro h0
    unfold listContractByCodeArgPhase
    rw [h0]
    rfl
  · intro cid hq
    unfold listContractByCodeArgPhase at hq
    cases h : parseUint64 arg with
    | error e => rw [h] at hq; simp at hq
    | ok v =>
      rw [h] at hq
      by_cases hv : v = 0
      · simp [hv] at hq
      · simp [hv] at hq
        constructor
        · rw [hq]
        · omega

/-- Witness for C8: the argument byte 48, the digit zero, parses to zero and
fails with the empty-code-id error before any query. -/
theorem C8_witness : listContractByCodeArgPhase [48] = .errOut "empty code id" :=
  (C8_list_contract_by_code_arg [48]).2.1 rfl

/-! ## Claim C9 -/

/-- C9: the smart contract-state command rejects the query argument before
the remote call when it is empty, when the decoder fails on it, or when the
decoded bytes fail the JSON validity check, and it issues the remote query
only for decoded bytes that pass the check. -/
theorem C9_smart_query_arg (a : argumentDecoder) (jsonValid : List Nat → Bool)
    (arg : List Nat) :
    (arg = [] → smartQueryArgPhase a jsonValid arg = .errOut "query data must not be empty") ∧
    (∀ e, arg ≠ [] → a.DecodeString arg = .error e →
      smartQueryArgPhase a jsonValid arg = .errOut ("decode query: " ++ e)) ∧
    (∀ qd, arg ≠ [] → a.DecodeString arg = .ok qd → jsonValid qd = false →
      smartQueryArgPhase a jsonValid arg = .errOut "query data must be json") ∧
    (∀ qd, smartQueryArgPhase a jsonValid arg = .remoteQuery qd →
      arg ≠ [] ∧ a.DecodeString arg = .ok qd ∧ jsonValid qd = true) := by
  refine ⟨?_, ?_, ?_, ?_⟩
  · intro he
    unfold smartQueryArgPhase
    simp [he]
  · intro e hne hdec
    unfold smartQueryArgPhase
    simp only [if_neg hne]
    rw [hdec]
  · intro qd hne hdec hjson
    unfold smartQueryArgPhase
    simp only [if_neg hne]
    rw [hdec]
    simp [hjson]
  · intro qd hq
    unfold smartQueryArgPhase at hq
    by_cases hne : arg = []
    · simp [hne] at hq
    · simp only [if_neg hne] at hq
      cases hdec : a.DecodeString arg with
      | error e => rw [hdec] at hq; simp at hq
      | ok qd2 =>
        rw [hdec] at hq
        by_cases hj : jsonValid qd2
        · simp [hj] at hq
          exact ⟨hne, by rw [hq], by rw [← hq]; exact hj⟩
        · simp [hj] at hq

/-- Witness for C9: the empty argument, a hex decode failure, and decoded
bytes failing the JSON check are each rejected before any remote call. -/
theorem C9_witness :
    smartQueryArgPhase (newArgDecoder asciiDecodeString) (fun _ => false) [] =
      .errOut "query data must not be empty" ∧
    smartQueryArgPhase ⟨asciiDecodeString, false, true, false⟩ (fun _ => true) [33] =
      .errOut ("decode query: " ++ "invalid byte") ∧
    smartQueryArgPhase (newArgDecoder asciiDecodeString) (fun _ => false) [104] =
      .errOut "query data must be json" :=
  ⟨(C9_smart_query_arg (newArgDecoder asciiDecodeString) (fun _ => false) []).1 rfl,
   (C9_smart_query_arg ⟨asciiDecodeString, false, true, false⟩ (fun _ => true) [33]).2.1
     "invalid byte" (by decide) rfl,
   (C9_smart_query_arg (newArgDecoder asciiDecodeString) (fun _ => false) [104]).2.2.1
     [104] (by decide) rfl rfl⟩

/-! ## Claim C10 -/

/-- C10: the code download command fails with the contract-not-found error
when the remote query returns empty data and no file is written; the file
write happens only for non-empty returned bytecode, which it writes
unchanged. -/
theorem C10_code_download (data : List Nat) :
    (data = [] → codeDownloadPhase data = .errOut "contract not found") ∧
    (∀ d, codeDownloadPhase data = .writeFile d → d = data ∧ data ≠ []) := by
  unfold codeDownloadPhase
  cases data with
  | nil => exact ⟨fun _ => rfl, fun d hd => by simp at hd⟩
  | cons b rest =>
    refine ⟨fun h => by simp at h, fun d hd => ?_⟩
    simp at hd
    exact ⟨hd.symm, by simp⟩

/-- Witness for C10: empty returned data fails with contract not found. -/
theorem C10_witness : codeDownloadPhase [] = .errOut "contract not found" :=
  (C10_code_download []).1 rfl

/-! ## Helper lemmas for the base64 claims -/

/-- Reading back an alphabet byte gives its position. -/
theorem b64Index_b64Char : ∀ v < 64, b64Index (b64Char v) = some v := by decide

/-- Alphabet bytes are not newlines. -/
theorem isNL_b64Char : ∀ v < 64, isNL (b64Char v) = false := by decide

/-- One data byte moves the quantum reader one unit forward. -/
theorem decodeQuantumGo_data (c v : Nat) (rest acc : List Nat)
    (hnl : isNL c = false) (hidx : b64Index c = some v) (hlen : acc.length ≠ 3) :
    decodeQuantumGo (c :: rest) acc = decodeQuantumGo rest (acc ++ [v]) := by
  simp [decodeQuantumGo, hnl, hidx, hlen]

/-- The fourth data byte completes the quantum. -/
theorem decodeQuantumGo_data4 (c v : Nat) (rest acc : List Nat)
    (hnl : isNL c = false) (hidx : b64Index c = some v) (hlen : acc.length = 3) :
    decodeQuantumGo (c :: rest) acc = .ok (quantumBytes (acc ++ [v]) 4, rest) := by
  simp [decodeQuantumGo, hnl, hidx, hlen]

/-- Reading four alphabet bytes yields one full quantum and the remainder. -/
theorem decodeQuantumGo_four (s0 s1 s2 s3 : Nat) (rest : List Nat)
    (h0 : s0 < 64) (h1 : s1 < 64) (h2 : s2 < 64) (h3 : s3 < 64) :
    decodeQuantumGo (b64Char s0 :: b64Char s1 :: b64Char s2 :: b64Char s3 :: rest) [] =
      .ok (quantumBytes [s0, s1, s2, s3] 4, rest) := by
  rw [decodeQuantumGo_data _ _ _ _ (isNL_b64Char s0 h0) (b64Index_b64Char s0 h0) (by simp)]
  rw [decodeQuantumGo_data _ _ _ _ (isNL_b64Char s1 h1) (b64Index_b64Char s1 h1) (by simp)]
  rw [decodeQuantumGo_data _ _ _ _ (isNL_b64Char s2 h2) (b64Index_b64Char s2 h2) (by simp)]
  rw [decodeQuantumGo_data4 _ _ _ _ (isNL_b64Char s3 h3) (b64Index_b64Char s3 h3) (by simp)]
  simp

/-- Reading two alphabet bytes and doubled padding yields a short quantum. -/
theorem decodeQuantumGo_pad2 (s0 s1 : Nat) (h0 : s0 < 64) (h1 : s1 < 64) :
    decodeQuantumGo [b64Char s0, b64Char s1, 61, 61] [] =
      .ok (quantumBytes [s0, s1] 2, []) := by
  rw [decodeQuantumGo_data _ _ _ _ (isNL_b64Char s0 h0) (b64Index_b64Char s0 h0) (by simp)]
  rw [decodeQuantumGo_data _ _ _ _ (isNL_b64Char s1 h1) (b64Index_b64Char s1 h1) (by simp)]
  rfl

/-- Reading three alphabet bytes and one padding byte yields a short
quantum. -/
theorem decodeQuantumGo_pad3 (s0 s1 s2 : Nat) (h0 : s0 < 64) (h1 : s1 < 64) (h2 : s2 < 64) :
    decodeQuantumGo [b64Char s0, b64Char s1, b64Char s2, 61] [] =
      .ok (quantumBytes [s0, s1, s2] 3, []) := by
  rw [decodeQuantumGo_data _ _ _ _ (isNL_b64Char s0 h0) (b64Index_b64Char s0 h0) (by simp)]
  rw [decodeQuantumGo_data _ _ _ _ (isNL_b64Char s1 h1) (b64Index_b64Char s1 h1) (by simp)]
  rw [decodeQuantumGo_data _ _ _ _ (isNL_b64Char s2 h2) (b64Index_b64Char s2 h2) (by simp)]
  rfl

/-- A short quantum of one encoded byte reproduces the byte. -/
theorem quantumBytes_one (b0 : Nat) (h : b0 < 256) :
    quantumBytes [b0 / 4, b0 % 4 * 16] 2 = [b0] := by
  simp [quantumBytes, quantumVal]
  omega

/-- A short quantum of two encoded bytes reproduces the bytes. -/
theorem quantumBytes_two (b0 b1 : Nat) (h0 : b0 < 256) (h1 : b1 < 256) :
    quantumBytes [b0 / 4, b0 % 4 * 16 + b1 / 16, b1 % 16 * 4] 3 = [b0, b1] := by
  simp [quantumBytes, quantumVal]
  omega

/-- A full quantum of three encoded bytes reproduces the bytes. -/
theorem quantumBytes_three (b0 b1 b2 : Nat) (h0 : b0 < 256) (h1 : b1 < 256) (h2 : b2 < 256) :
    quantumBytes [b0 / 4, b0 % 4 * 16 + b1 / 16, b1 % 16 * 4 + b2 / 64, b2 % 64] 4 =
      [b0, b1, b2] := by
  simp [quantumBytes, quantumVal]
  omega

/-- The base64 encoding is at least as long as its input. -/
theorem b64Encode_length : ∀ n B, B.length ≤ n → B.length ≤ (b64EncodeToString B).length := by
  intro n
  induction n with
  | zero =>
    intro B hB
    match B with
    | [] => simp
    | b :: rest => simp at hB
  | succ n ih =>
    intro B hB
    match B with
    | [] => simp
    | [b0] => simp [b64EncodeToString]
    | [b0, b1] => simp [b64EncodeToString]
    | b0 :: b1 :: b2 :: rest =>
      have hr := ih rest (by simp at hB; omega)
      simp only [b64EncodeToString, List.length_cons]
      omega

/-- Decoding the base64 encoding of a byte list returns the list, for any
fuel at least the input length. -/
theorem b64DecodeAux_encode : ∀ n B, B.length ≤ n → (∀ b ∈ B, b < 256) →
    b64DecodeAux (n + 1) (b64EncodeToString B) = .ok B := by
  intro n
  induction n using Nat.strong_induction_on with
  | _ n ih =>
    intro B hlen hB
    match B with
    | [] => rfl
    | [b0] =>
      have hb0 : b0 < 256 := hB b0 (by simp)
      have hq := decodeQuantumGo_pad2 (b0 / 4) (b0 % 4 * 16) (by omega) (by omega)
      simp only [b64EncodeToString, b64DecodeAux, hq, quantumBytes_one b0 hb0,
        List.append_nil]
    | [b0, b1] =>
      have hb0 : b0 < 256 := hB b0 (by simp)
      have hb1 : b1 < 256 := hB b1 (by simp)
      have hq := decodeQuantumGo_pad3 (b0 / 4) (b0 % 4 * 16 + b1 / 16) (b1 % 16 * 4)
        (by omega) (by omega) (by omega)
      simp only [b64EncodeToString, b64DecodeAux, hq, quantumBytes_two b0 b1 hb0 hb1,
        List.append_nil]
    | b0 :: b1 :: b2 :: rest =>
      have hb0 : b0 < 256 := hB b0 (by simp)
      have hb1 : b1 < 256 := hB b1 (by simp)
      have hb2 : b2 < 256 := hB b2 (by simp)
      have hrest : ∀ b ∈ rest, b < 256 := fun b hb => hB b (by simp [hb])
      have hlen3 : rest.length + 3 ≤ n := by simp at hlen; omega
      have ihr := ih (n - 1) (by omega) rest (by omega) hrest
      have hq := decodeQuantumGo_four (b0 / 4) (b0 % 4 * 16 + b1 / 16)
        (b1 % 16 * 4 + b2 / 64) (b2 % 64) (b64EncodeToString rest)
        (by omega) (by omega) (by omega) (by omega)
      have hn : n - 1 + 1 = n := by omega
      rw [hn] at ihr
      simp only [b64EncodeToString, b64DecodeAux, hq,
        quantumBytes_three b0 b1 b2 hb0 hb1 hb2, ihr]
      rfl

/-- Decoding the standard base64 encoding of a byte list returns the list. -/
theorem b64Decode_b64Encode (B : List Nat) (h : ∀ b ∈ B, b < 256) :
    b64DecodeString (b64EncodeToString B) = .ok B := by
  unfold b64DecodeString
  exact b64DecodeAux_encode (b64EncodeToString B).length B
    (b64Encode_length B.length B le_rfl) h

/-! ## Claim C5 -/

/-- C5: the base64 branch of DecodeString round-trips: decoding the
standard-alphabet base64 encoding of any byte sequence succeeds and yields
exactly that sequence. -/
theorem C5_b64_roundtrip (dec : List Nat → Except String (List Nat)) (B : List Nat)
    (h : ∀ b ∈ B, b < 256) :
    argumentDecoder.DecodeString ⟨dec, false, false, true⟩ (b64EncodeToString B) = .ok B :=
  b64Decode_b64Encode B h

/-- Witness for C5 at the bytes 104 and 105. -/
theorem C5_witness :
    argumentDecoder.DecodeString ⟨asciiDecodeString, false, false, true⟩
      (b64EncodeToString [104, 105]) = .ok [104, 105] :=
  C5_b64_roundtrip asciiDecodeString [104, 105] (by decide)

/-! ## Helper lemmas for claim C6 -/

/-- Two leading hex digits do not change hex well-formedness. -/
theorem hexWellFormed_cons2 (p q a b : Nat) (rest : List Nat)
    (hp : fromHexChar p = some a) (hq : fromHexChar q = some b) :
    hexWellFormed (p :: q :: rest) = hexWellFormed rest := by
  have hm : (rest.length + 1 + 1) % 2 = rest.length % 2 := by omega
  simp [hexWellFormed, hp, hq, hm]

/-- The hex decoder succeeds exactly on even-length all-digit inputs. -/
theorem exceptOk_hexDecodeString : ∀ n, ∀ s : List Nat, s.length ≤ n →
    exceptOk (hexDecodeString s) = hexWellFormed s := by
  intro n
  induction n with
  | zero =>
    intro s hs
    match s with
    | [] => rfl
    | c :: rest => simp at hs
  | succ n ih =>
    intro s hs
    match s with
    | [] => rfl
    | [c] =>
      cases hc : fromHexChar c <;> simp [hexDecodeString, hexWellFormed, exceptOk, hc]
    | p :: q :: rest =>
      cases hp : fromHexChar p with
      | none => simp [hexDecodeString, hexWellFormed, exceptOk, hp]
      | some a =>
        cases hq : fromHexChar q with
        | none => simp [hexDecodeString, hexWellFormed, exceptOk, hp, hq]
        | some b =>
          have ihr := ih rest (by simp at hs; omega)
          rw [hexWellFormed_cons2 p q a b rest hp hq, ← ihr]
          simp only [hexDecodeString, hp, hq]
          cases hr : hexDecodeString rest <;> simp [exceptOk, hr]

/-- A leading newline disappears from the newline-free content. -/
theorem filterNL_cons_nl (c : Nat) (rest : List Nat) (h : isNL c = true) :
    filterNL (c :: rest) = filterNL rest := by
  simp [filterNL, h]

/-- A leading data byte stays in the newline-free content. -/
theorem filterNL_cons_data (c : Nat) (rest : List Nat) (h : isNL c = false) :
    filterNL (c :: rest) = c :: filterNL rest := by
  simp [filterNL, h]

/-- Skipping leading newlines does not change the newline-free content. -/
theorem filterNL_skipNL : ∀ l : List Nat, filterNL (skipNL l) = filterNL l := by
  intro l
  induction l with
  | nil => rfl
  | cons c rest ih =>
    cases h : isNL c with
    | true =>
      rw [show skipNL (c :: rest) = skipNL rest by simp [skipNL, h], ih,
        filterNL_cons_nl c rest h]
    | false =>
      rw [show skipNL (c :: rest) = c :: rest by simp [skipNL, h]]

/-- Prepending one full alphabet quantum preserves language membership. -/
theorem b64Lang_cons4 (a b c d : Nat) (t : List Nat)
    (ha : isAlphaB64 a = true) (hb : isAlphaB64 b = true)
    (hc : isAlphaB64 c = true) (hd : isAlphaB64 d = true)
    (ht : b64Lang t = true) : b64Lang (a :: b :: c :: d :: t) = true := by
  cases t with
  | nil => simp [b64Lang, finalQuantumOk, ha, hb, hc, hd]
  | cons x xs => simp [b64Lang, ha, hb, hc, hd, ht]

/-- A doubled-padding final quantum is in the language. -/
theorem b64Lang_pad2 (a b : Nat) (ha : isAlphaB64 a = true) (hb : isAlphaB64 b = true) :
    b64Lang [a, b, 61, 61] = true := by
  simp [b64Lang, finalQuantumOk, ha, hb]

/-- A single-padding final quantum is in the language. -/
theorem b64Lang_pad3 (a b c : Nat) (ha : isAlphaB64 a = true) (hb : isAlphaB64 b = true)
    (hc : isAlphaB64 c = true) : b64Lang [a, b, c, 61] = true := by
  simp [b64Lang, finalQuantumOk, ha, hb, hc]

/-- Shape of the newline-free content consumed by a successful quantum read:
nothing at all, a completion of the current quantum to four data bytes with
the remainder unread, or a completion to a padded final quantum with nothing
but newlines after it. -/
theorem decodeQuantumGo_ok_shape : ∀ src acc bs rest,
    acc.length ≤ 3 →
    decodeQuantumGo src acc = .ok (bs, rest) →
    (acc = [] ∧ rest = [] ∧ filterNL src = [])
    ∨ (∃ ds, (∀ d ∈ ds, isAlphaB64 d = true) ∧ acc.length + ds.length = 4 ∧
        filterNL src = ds ++ filterNL rest)
    ∨ (∃ ds, (∀ d ∈ ds, isAlphaB64 d = true) ∧ acc.length + ds.length = 2 ∧
        filterNL src = ds ++ [61, 61] ∧ rest = [])
    ∨ (∃ ds, (∀ d ∈ ds, isAlphaB64 d = true) ∧ acc.length + ds.length = 3 ∧
        filterNL src = ds ++ [61] ∧ rest = []) := by
  intro src
  induction src with
  | nil =>
    intro acc bs rest hacc h
    by_cases h0 : acc.length = 0
    · have hae : acc = [] := List.eq_nil_of_length_eq_zero h0
      subst hae
      simp [decodeQuantumGo] at h
      exact Or.inl ⟨rfl, h.2, rfl⟩
    · simp [decodeQuantumGo, h0] at h
  | cons c cs ih =>
    intro acc bs rest hacc h
    cases hnl : isNL c with
    | true =>
      rw [show decodeQuantumGo (c :: cs) acc = decodeQuantumGo cs acc by
        simp [decodeQuantumGo, hnl]] at h
      rw [filterNL_cons_nl c cs hnl]
      exact ih acc bs rest hacc h
    | false =>
      cases hidx : b64Index c with
      | some v =>
        by_cases h3 : acc.length = 3
        · rw [decodeQuantumGo_data4 c v cs acc hnl hidx h3] at h
          simp only [Except.ok.injEq, Prod.mk.injEq] at h
          right; left
          refine ⟨[c], ?_, ?_, ?_⟩
          · intro d hd
            simp at hd
            subst hd
            simp [isAlphaB64, hidx]
          · simp [h3]
          · rw [filterNL_cons_data c cs hnl, h.2]
            rfl
        · rw [decodeQuantumGo_data c v cs acc hnl hidx h3] at h
          have hacc2 : (acc ++ [v]).length ≤ 3 := by
            simp
            omega
          rcases ih (acc ++ [v]) bs rest hacc2 h with
            ⟨hempty, _, _⟩ | ⟨ds, hall, hlen4, hsplit⟩
            | ⟨ds, hall, hlen2, hsplit, hrest⟩ | ⟨ds, hall, hlen3, hsplit, hrest⟩
          · exact absurd hempty (by simp)
          · right; left
            refine ⟨c :: ds, ?_, ?_, ?_⟩
            · intro d hd
              rcases List.mem_cons.mp hd with hd1 | hd2
              · subst hd1
                simp [isAlphaB64, hidx]
              · exact hall d hd2
            · simp at hlen4 ⊢
              omega
            · rw [filterNL_cons_data c cs hnl, hsplit]
              rfl
          · right; right; left
            refine ⟨c :: ds, ?_, ?_, ?_, hrest⟩
            · intro d hd
              rcases List.mem_cons.mp hd with hd1 | hd2
              · subst hd1
                simp [isAlphaB64, hidx]
              · exact hall d hd2
            · simp at hlen2 ⊢
              omega
            · rw [filterNL_cons_data c cs hnl, hsplit]
              rfl
          · right; right; right
            refine ⟨c :: ds, ?_, ?_, ?_, hrest⟩
            · intro d hd
              rcases List.mem_cons.mp hd with hd1 | hd2
              · subst hd1
                simp [isAlphaB64, hidx]
              · exact hall d hd2
            · simp at hlen3 ⊢
              omega
            · rw [filterNL_cons_data c cs hnl, hsplit]
              rfl
      | none =>
        by_cases he : c = 61
        · subst he
          by_cases h2 : acc.length = 2
          · cases hsk : skipNL cs with
            | nil => simp [decodeQuantumGo, hnl, hidx, h2, hsk] at h
            | cons c2 rest2 =>
              by_cases he2 : c2 = 61
              · subst he2
                cases hsk2 : skipNL rest2 with
                | cons d ds2 => simp [decodeQuantumGo, hnl, hidx, h2, hsk, hsk2] at h
                | nil =>
                  simp only [decodeQuantumGo, hnl, hidx, h2, hsk, hsk2] at h
                  simp at h
                  obtain ⟨hbs, hrest⟩ := h
                  subst hrest
                  right; right; left
                  refine ⟨[], by simp, by simpa using h2, ?_, rfl⟩
                  rw [filterNL_cons_data 61 cs hnl]
                  have e1 : filterNL cs = 61 :: filterNL rest2 := by
                    rw [← filterNL_skipNL cs, hsk, filterNL_cons_data 61 rest2 hnl]
                  have e2 : filterNL rest2 = [] := by
                    rw [← filterNL_skipNL rest2, hsk2]
                    rfl
                  rw [e1, e2]
                  rfl
              · simp [decodeQuantumGo, hnl, hidx, h2, hsk, he2] at h
          · by_cases h3 : acc.length = 3
            · cases hsk : skipNL cs with
              | cons d ds2 => simp [decodeQuantumGo, hnl, hidx, h2, h3, hsk] at h
              | nil =>
                simp only [decodeQuantumGo, hnl, hidx, h2, h3, hsk] at h
                simp at h
                obtain ⟨hbs, hrest⟩ := h
                subst hrest
                right; right; right
                refine ⟨[], by simp, by simpa using h3, ?_, rfl⟩
                rw [filterNL_cons_data 61 cs hnl]
                have e1 : filterNL cs = [] := by
                  rw [← filterNL_skipNL cs, hsk]
                  rfl
                rw [e1]
                rfl
            · simp [decodeQuantumGo, hnl, hidx, h2, h3] at h
        · rw [show decodeQuantumGo (c :: cs) acc = .error "corrupt input" by
            simp [decodeQuantumGo, hnl, hidx, he]] at h
          simp at h

/-- A successful run of the base64 decode loop accepts only inputs whose
newline-free content is in the language of the standard padded encoding. -/
theorem b64DecodeAux_ok_lang : ∀ fuel src bs, b64DecodeAux fuel src = .ok bs →
    b64Lang (filterNL src) = true := by
  intro fuel
  induction fuel with
  | zero =>
    intro src bs h
    match src with
    | [] => rfl
    | c :: cs => simp [b64DecodeAux] at h
  | succ fuel ih =>
    intro src bs h
    match src with
    | [] => rfl
    | c :: cs =>
      simp only [b64DecodeAux] at h
      cases hq : decodeQuantumGo (c :: cs) [] with
      | error e =>
        rw [hq] at h
        simp at h
      | ok pr =>
        obtain ⟨qbs, rest⟩ := pr
        rw [hq] at h
        have h2 : (match b64DecodeAux fuel rest with
            | Except.error e => Except.error e
            | Except.ok bs2 => Except.ok (qbs ++ bs2)) = Except.ok bs := h
        cases hr : b64DecodeAux fuel rest with
        | error e =>
          rw [hr] at h2
          simp at h2
        | ok bs2 =>
          have hlang := ih rest bs2 hr
          rcases decodeQuantumGo_ok_shape (c :: cs) [] qbs rest (by simp) hq with
            ⟨_, _, hempty⟩ | ⟨ds, hall, hlen4, hsplit⟩
            | ⟨ds, hall, hlen2, hsplit, hrest⟩ | ⟨ds, hall, hlen3, hsplit, hrest⟩
          · rw [hempty]
            rfl
          · rcases ds with _ | ⟨a, _ | ⟨b, _ | ⟨c3, _ | ⟨d, _ | _⟩⟩⟩⟩ <;> simp at hlen4
            rw [hsplit]
            exact b64Lang_cons4 a b c3 d (filterNL rest)
              (hall a (by simp)) (hall b (by simp)) (hall c3 (by simp)) (hall d (by simp))
              hlang
          · rcases ds with _ | ⟨a, _ | ⟨b, _ | _⟩⟩ <;> simp at hlen2
            rw [hsplit]
            exact b64Lang_pad2 a b (hall a (by simp)) (hall b (by simp))
          · rcases ds with _ | ⟨a, _ | ⟨b, _ | ⟨c3, _ | _⟩⟩⟩ <;> simp at hlen3
            rw [hsplit]
            exact b64Lang_pad3 a b c3 (hall a (by simp)) (hall b (by simp)) (hall c3 (by simp))

/-! ## Claim C6 -/

/-- C6: malformed input yields a decode error, never a success: with the hex
flag set, DecodeString fails on every input that is not an even-length
string of hex digits (in particular odd-length input), and with the b64 flag
set it fails on every input whose newline-free content is not a padded
standard-alphabet base64 word (in particular input with invalid padding). -/
theorem C6_malformed_error (dec : List Nat → Except String (List Nat)) (s : List Nat) :
    (hexWellFormed s = false →
      exceptOk (argumentDecoder.DecodeString ⟨dec, false, true, false⟩ s) = false) ∧
    (b64Lang (filterNL s) = false →
      exceptOk (argumentDecoder.DecodeString ⟨dec, false, false, true⟩ s) = false) := by
  constructor
  · intro hbad
    calc exceptOk (argumentDecoder.DecodeString ⟨dec, false, true, false⟩ s)
        = exceptOk (hexDecodeString s) := rfl
      _ = hexWellFormed s := exceptOk_hexDecodeString s.length s le_rfl
      _ = false := hbad
  · intro hbad
    cases hres : b64DecodeString s with
    | error e =>
      calc exceptOk (argumentDecoder.DecodeString ⟨dec, false, false, true⟩ s)
          = exceptOk (b64DecodeString s) := rfl
        _ = false := by rw [hres]; rfl
    | ok bs =>
      exact absurd (b64DecodeAux_ok_lang (s.length + 1) s bs hres) (by simp [hbad])

/-- Witness for C6: the odd-length hex input made of the bytes of abc is
rejected by the hex branch, and the two-byte input with a single stray
padding byte is rejected by the base64 branch. -/
theorem C6_witness :
    exceptOk (argumentDecoder.DecodeString ⟨asciiDecodeString, false, true, false⟩
      [97, 98, 99]) = false ∧
    exceptOk (argumentDecoder.DecodeString ⟨asciiDecodeString, false, false, true⟩
      [97, 61]) = false :=
  ⟨(C6_malformed_error asciiDecodeString [97, 98, 99]).1 (by decide),
   (C6_malformed_error asciiDecodeString [97, 61]).2 (by decide)⟩
